import Mathlib

/-!
# Verification of the texas-property-data pipeline

Shallow embedding, in Lean 4, of the pure algorithms and of the control flow
of the document-capture pipeline of the repository:

* `src/main.ts` : `parseLegalDescription`, `normalizeOwnerName`, and the
  year-interval compaction performed inside `saveDataToSupabase`;
* `src/scrapers/dallas/clerk-scraper.ts` : `runClerkScraper`, i.e. the
  document match filter and the per-document capture loop.

Strings are modelled at the character-list level (`List Char`); JavaScript
`toUpperCase`, `trim`, `\s`, `\w` and `\d` are modelled by their ASCII
behaviour, which is exact for the data handled by this program.  Machine
numbers that the code uses as years are modelled as `Int`.  Every effectful
step of the capture loop is driven by an explicit environment (`RunEnv`)
recording, for each matched document, the outcome of each capture attempt
and of the navigation back to the listing.
-/

namespace TexasProperty

/-! ## Character-level helpers (ASCII models of JS string primitives) -/

/-- ASCII model of the JS regex class `\w` = `[A-Za-z0-9_]`. -/
def wordChar (c : Char) : Bool :=
  c.isAlphanum || c == '_'

/-- ASCII model of the JS regex class `\s` (whitespace). -/
def isWs (c : Char) : Bool :=
  c == ' ' || c == '\t' || c == '\n' || c == '\r' || c == '\x0b' || c == '\x0c'

/-- If `pat` is an initial run of `s`, return the remainder of `s`. -/
def chopLead : List Char → List Char → Option (List Char)
  | [], s => some s
  | _ :: _, [] => none
  | p :: ps, c :: cs => if p == c then chopLead ps cs else none

/-- Case-insensitive (ASCII) variant of `chopLead`; models a `/i` regex
keyword match. -/
def chopLeadCI : List Char → List Char → Option (List Char)
  | [], s => some s
  | _ :: _, [] => none
  | p :: ps, c :: cs => if p.toUpper == c.toUpper then chopLeadCI ps cs else none

/-- Index of the first occurrence of `needle` in `hay`
(JS `String.prototype.indexOf`, with `none` for `-1`). -/
def indexOfSub (needle : List Char) : List Char → Option Nat
  | [] => if needle.isEmpty then some 0 else none
  | c :: cs =>
    if (chopLead needle (c :: cs)).isSome then some 0
    else (indexOfSub needle cs).map (· + 1)

/-- JS `String.prototype.includes`. -/
def containsSub (needle hay : List Char) : Bool :=
  (indexOfSub needle hay).isSome

/-- JS `String.prototype.trim` (ASCII whitespace). -/
def trimChars (s : List Char) : List Char :=
  ((s.dropWhile isWs).reverse.dropWhile isWs).reverse

/-- JS `String.prototype.toUpperCase` (ASCII), at the `String` level. -/
def upperStr (s : String) : String :=
  String.mk (s.data.map Char.toUpper)

/-! ## Document match filter (`clerk-scraper.ts`, lines 57-62)

The code builds, for a target lot `L` and block `B`, the two regexes
`\b(LOT|LT):?\s*L\b` and `\b(BLOCK|BLK):?\s*B\b` (no `/i` flag) and tests
them against `doc.legal_description?.toUpperCase() || ''`.  The embedding
below implements exactly that pattern shape, treating the interpolated
target as a literal; this is exact whenever the target contains no regex
metacharacters (targets come from `(\d+)` / `([^\s/]+)` captures). -/

/-- JS `\b` between an optional previous character and the head of `rest`:
true iff exactly one side is a word character (an absent side counts as a
non-word character). -/
def tailBoundary (prevIsWord : Bool) (rest : List Char) : Bool :=
  prevIsWord != (match rest with | c :: _ => wordChar c | [] => false)

/-- Match the literal `num` here, then require a `\b`.  `prev` is the
character immediately before the current position (used when `num` is
empty). -/
def numThenBoundary (num : List Char) (prev : Char) (s : List Char) : Bool :=
  match chopLead num s with
  | some rest => tailBoundary (wordChar ((num.getLast?).getD prev)) rest
  | none => false

/-- Match `\s*num\b` starting here, with backtracking over the number of
whitespace characters consumed. -/
def wsStarNum (num : List Char) : Char → List Char → Bool
  | prev, [] => numThenBoundary num prev []
  | prev, c :: cs =>
    numThenBoundary num prev (c :: cs) || (isWs c && wsStarNum num c cs)

/-- Match `:?\s*num\b` starting just after a keyword whose last character is
`kwLast`. -/
def afterKw (num : List Char) (kwLast : Char) (s : List Char) : Bool :=
  wsStarNum num kwLast s ||
    (match s with
     | ':' :: cs => wsStarNum num ':' cs
     | _ => false)

/-- Try `\b(kw₁|kw₂|...):?\s*num\b` exactly at the current position;
`prevIsWord` tells whether the previous character is a word character. -/
def kwNumAt (kws : List (List Char)) (num : List Char) (prevIsWord : Bool)
    (s : List Char) : Bool :=
  kws.any fun kw =>
    match kw, chopLead kw s with
    | k0 :: kt, some rest =>
      (prevIsWord != wordChar k0) && afterKw num (((k0 :: kt).getLast?).getD k0) rest
    | _, _ => false

/-- Scan the whole text for `\b(kw₁|kw₂|...):?\s*num\b`
(JS `RegExp.prototype.test`). -/
def scanKwNum (kws : List (List Char)) (num : List Char) : Bool → List Char → Bool
  | _, [] => false
  | prevW, c :: cs => kwNumAt kws num prevW (c :: cs) || scanKwNum kws num (wordChar c) cs

/-- `new RegExp(`\b(LOT|LT):?\s*${lot}\b`).test(docLegal)`. -/
def hasLotMatch (lot : String) (docLegal : String) : Bool :=
  scanKwNum [('L' :: 'O' :: 'T' :: []), ('L' :: 'T' :: [])] lot.data false docLegal.data

/-- `new RegExp(`\b(BLOCK|BLK):?\s*${block}\b`).test(docLegal)`. -/
def hasBlockMatch (block : String) (docLegal : String) : Bool :=
  scanKwNum [('B' :: 'L' :: 'O' :: 'C' :: 'K' :: []), ('B' :: 'L' :: 'K' :: [])]
    block.data false docLegal.data

/-- One entry of the extracted results listing
(the zod schema of `clerk-scraper.ts`, lines 44-54: all fields optional). -/
structure RawDoc where
  document_type : Option String
  grantor : Option String
  grantee : Option String
  filing_date : Option String
  instrument_number : Option String
  book_and_page : Option String
  legal_description : Option String
deriving DecidableEq, Repr

/-- The filter predicate of `clerk-scraper.ts`, lines 57-62: the document's
legal description is uppercased (`?.toUpperCase() || ''`), the target is
interpolated as-is, and both the lot and the block pattern must match. -/
def matchesTarget (lot block : String) (d : RawDoc) : Bool :=
  let docLegal := (d.legal_description.map upperStr).getD ""
  hasLotMatch lot docLegal && hasBlockMatch block docLegal

/-- Specification-side predicate, written from the spec's words (§4.2): the
legal-description text contains a word-boundary-anchored match for the lot
number prefixed by LOT or LT, and one for the block number prefixed by
BLOCK or BLK, *case-insensitively*.  It differs from `matchesTarget` only
in applying the case-insensitivity to the target as well as to the text
(both sides are uppercased). -/
def specCaseInsensitiveMatch (lot block : String) (d : RawDoc) : Bool :=
  let docLegal := upperStr (d.legal_description.getD "")
  hasLotMatch (upperStr lot) docLegal && hasBlockMatch (upperStr block) docLegal

/-! ## Legal-description parser (`main.ts`, lines 31-53)

`parseLegalDescription` splits the input into trimmed non-empty lines,
joins them with spaces, derives the subdivision from the position of the
first `BLK` in the uppercased text, and extracts block / city-block and
lot1 / lot2 with the regexes
`/(?:BLK|BLOCK)\s*([^\s\/]+)(?:\s*\/\s*(\S+))?/i` and
`/(?:LTS|LT|LOTS|LOT)\s*(\d+)(?:\s*&\s*(\d+))?/i` (first match only).
For a falsy input (`undefined`, `null` or the empty string) it returns the
empty object `{}`, modelled here as `none`. -/

/-- JS `String.prototype.split('\n')` at the character level. -/
def splitLines : List Char → List (List Char)
  | [] => [[]]
  | c :: cs =>
    if c == '\n' then [] :: splitLines cs
    else
      match splitLines cs with
      | [] => [(c :: [])]
      | l :: ls => (c :: l) :: ls

/-- `lines.join(' ')` at the character level. -/
def joinSp : List (List Char) → List Char
  | [] => []
  | [l] => l
  | l :: l' :: ls => l ++ ' ' :: joinSp (l' :: ls)

/-- Leftmost match of `(?:BLK|BLOCK)\s*([^\s\/]+)(?:\s*\/\s*(\S+))?` (with
`/i`) at one fixed position, for one keyword alternative.  Returns the two
capture groups. -/
def blockKwAt (kw s : List Char) : Option (List Char × Option (List Char)) :=
  match chopLeadCI kw s with
  | none => none
  | some r1 =>
    let r2 := r1.dropWhile isWs
    let c1 := r2.takeWhile fun c => !isWs c && c != '/'
    if c1.isEmpty then none
    else
      let r3 := (r2.drop c1.length).dropWhile isWs
      match r3 with
      | '/' :: r4 =>
        let c2 := (r4.dropWhile isWs).takeWhile fun c => !isWs c
        if c2.isEmpty then some (c1, none) else some (c1, some c2)
      | _ => some (c1, none)

/-- The block regex tried at one position: alternatives in source order
(`BLK` before `BLOCK`). -/
def blockAt (s : List Char) : Option (List Char × Option (List Char)) :=
  match blockKwAt ('B' :: 'L' :: 'K' :: []) s with
  | some r => some r
  | none => blockKwAt ('B' :: 'L' :: 'O' :: 'C' :: 'K' :: []) s

/-- Leftmost match of the block regex over the whole text
(JS `String.prototype.match`, first match). -/
def findBlock : List Char → Option (List Char × Option (List Char))
  | [] => none
  | c :: cs =>
    match blockAt (c :: cs) with
    | some r => some r
    | none => findBlock cs

/-- Leftmost match of `(?:LTS|LT|LOTS|LOT)\s*(\d+)(?:\s*&\s*(\d+))?` (with
`/i`) at one fixed position, for one keyword alternative. -/
def lotKwAt (kw s : List Char) : Option (List Char × Option (List Char)) :=
  match chopLeadCI kw s with
  | none => none
  | some r1 =>
    let r2 := r1.dropWhile isWs
    let c1 := r2.takeWhile Char.isDigit
    if c1.isEmpty then none
    else
      let r3 := (r2.drop c1.length).dropWhile isWs
      match r3 with
      | '&' :: r4 =>
        let c2 := (r4.dropWhile isWs).takeWhile Char.isDigit
        if c2.isEmpty then some (c1, none) else some (c1, some c2)
      | _ => some (c1, none)

/-- The lot regex tried at one position: alternatives in source order
(`LTS`, `LT`, `LOTS`, `LOT`). -/
def lotAt (s : List Char) : Option (List Char × Option (List Char)) :=
  match lotKwAt ('L' :: 'T' :: 'S' :: []) s with
  | some r => some r
  | none =>
    match lotKwAt ('L' :: 'T' :: []) s with
    | some r => some r
    | none =>
      match lotKwAt ('L' :: 'O' :: 'T' :: 'S' :: []) s with
      | some r => some r
      | none => lotKwAt ('L' :: 'O' :: 'T' :: []) s

/-- Leftmost match of the lot regex over the whole text. -/
def findLot : List Char → Option (List Char × Option (List Char))
  | [] => none
  | c :: cs =>
    match lotAt (c :: cs) with
    | some r => some r
    | none => findLot cs

/-- The record `{subdivision, block, city_block, lot1, lot2}` produced by
`parseLegalDescription` for a truthy input. -/
structure LegalFields where
  subdivision : Option String
  block : Option String
  city_block : Option String
  lot1 : Option String
  lot2 : Option String
deriving DecidableEq, Repr

/-- Body of `parseLegalDescription` for a non-empty description
(`main.ts`, lines 33-52). -/
def parseLegalCore (ds : List Char) : LegalFields :=
  let lines := ((splitLines ds).map trimChars).filter fun l => !l.isEmpty
  let fd := joinSp lines
  let subdivisionElse : Option String :=
    match lines with
    | [] => none
    | l0 :: _ =>
      if !containsSub ('B' :: 'L' :: 'K' :: []) (l0.map Char.toUpper)
          && !containsSub ('B' :: 'L' :: 'O' :: 'C' :: 'K' :: []) (l0.map Char.toUpper)
      then some (String.mk l0) else none
  let subdivision : Option String :=
    match indexOfSub ('B' :: 'L' :: 'K' :: []) (fd.map Char.toUpper) with
    | some i => if 0 < i then some (String.mk (trimChars (fd.take i))) else subdivisionElse
    | none => subdivisionElse
  let bm := findBlock fd
  let lm := findLot fd
  { subdivision := subdivision
    block := bm.map fun p => String.mk p.1
    city_block := match bm with | some (_, some c2) => some (String.mk c2) | _ => none
    lot1 := lm.map fun p => String.mk p.1
    lot2 := match lm with | some (_, some c2) => some (String.mk c2) | _ => none }

/-- `parseLegalDescription` (`main.ts`, lines 31-53).  `none` as input
models `undefined`/`null`; `none` as output models the empty object `{}`
returned for falsy input (a record carrying none of the five fields). -/
def parseLegalDescription : Option String → Option LegalFields
  | none => none
  | some d => if d.data.isEmpty then none else some (parseLegalCore d.data)

/-! ## Owner-name normalization (`main.ts`, lines 58-65)

`normalizeOwnerName` chains `toUpperCase()`, `replace(/[,.]/g, '')`,
`replace(/\s+/g, ' ')`, `replace(/&\s*ET\s*AL/g, '')` and `trim()`.
Note that the `& ET AL` replacement is global: it removes *every*
occurrence of the pattern, not only a trailing suffix. -/

/-- `replace(/[,.]/g, '')`. -/
def stripPunct (s : List Char) : List Char :=
  s.filter fun c => !(c == ',' || c == '.')

/-- `replace(/\s+/g, ' ')`: every maximal whitespace run becomes one
space. -/
def collapseWs : List Char → List Char
  | [] => []
  | [c] => if isWs c then [' '] else [c]
  | c :: c' :: cs =>
    if isWs c && isWs c' then collapseWs (c' :: cs)
    else (if isWs c then ' ' else c) :: collapseWs (c' :: cs)

/-- Match `\s*ET\s*AL` (the part of the pattern after the `&`), returning
the remainder. -/
def etAlTail (s : List Char) : Option (List Char) :=
  match chopLead ('E' :: 'T' :: []) (s.dropWhile isWs) with
  | none => none
  | some s2 => chopLead ('A' :: 'L' :: []) (s2.dropWhile isWs)

/-- `replace(/&\s*ET\s*AL/g, '')`: scan left to right, removing every
occurrence.  The `fuel` argument is only a structural-termination device:
every step consumes at least one character of the text, so `s.length` fuel
always suffices and the `fuel = 0` branch is never reached from
`removeEtAl`. -/
def removeEtAlFuel : Nat → List Char → List Char
  | 0, s => s
  | _, [] => []
  | fuel + 1, c :: cs =>
    if c == '&' then
      match etAlTail cs with
      | some rest => removeEtAlFuel fuel rest
      | none => c :: removeEtAlFuel fuel cs
    else c :: removeEtAlFuel fuel cs

def removeEtAl (s : List Char) : List Char :=
  removeEtAlFuel s.length s

/-- `normalizeOwnerName` (`main.ts`, lines 58-65). -/
def normalizeOwnerName (name : String) : String :=
  String.mk (trimChars (removeEtAl (collapseWs (stripPunct (name.data.map Char.toUpper)))))

/-- Specification-side normalization, written from the spec's words (§4.4):
uppercase, strip commas and periods, collapse whitespace, strip a
*trailing* `& ET AL` suffix (and trim, so that the spec's own merge
example holds).  It differs from `normalizeOwnerName` in stripping only a
trailing occurrence of the pattern. -/
def specNormalizeOwnerName (name : String) : String :=
  let s := collapseWs (stripPunct (name.data.map Char.toUpper))
  let suffix := '&' :: ' ' :: 'E' :: 'T' :: ' ' :: 'A' :: 'L' :: []
  if (chopLead suffix.reverse s.reverse).isSome
  then String.mk (trimChars (s.take (s.length - suffix.length)))
  else String.mk (trimChars s)

/-- `new Map(upsertedOwners.map(o => [normalizeOwnerName(o.owner_name), o.id]))`
(`main.ts`, line 149): association list keyed by the normalized name;
later entries overwrite earlier ones, as in a JS `Map` built from pairs. -/
def ownerNameToIdMap (owners : List (String × Nat)) : List (String × Nat) :=
  owners.map fun p => (normalizeOwnerName p.1, p.2)

/-- `Map.prototype.get`: last binding wins. -/
def mapGet (m : List (String × Nat)) (k : String) : Option Nat :=
  (m.reverse.find? fun p => p.1 == k).map fun p => p.2

/-- `ownerNameToIdMap.get(normalizeOwnerName(ownerName))`
(`main.ts`, line 189): the owner identity a raw name resolves to. -/
def ownerIdFor (owners : List (String × Nat)) (raw : String) : Option Nat :=
  mapGet (ownerNameToIdMap owners) (normalizeOwnerName raw)

/-! ## Interval compaction (`main.ts`, lines 164-183 and 197-218)

Both the exemption branch and the ownership branch of `saveDataToSupabase`
run the same scan: sort one key's years descending, keep an open range end
`end_year`, and walking down the sorted list push `{start_year: years[i],
end_year}` whenever the next year is not `years[i] - 1` (or the list
ends), then reopen at the next year.  Years are JS numbers holding integer
values; they are modelled as `Int`. -/

/-- The scan of the per-key loop.  `compactScan e (y :: rest)` corresponds
to the loop state where `e` is the current `end_year` and `y` the year at
the current index.  Ranges are `(start_year, end_year)` pairs. -/
def compactScan : Int → List Int → List (Int × Int)
  | _, [] => []
  | e, [y] => [(y, e)]
  | e, y :: y' :: rest =>
    if y' = y - 1 then compactScan e (y' :: rest)
    else (y, e) :: compactScan y' (y' :: rest)

/-- `years.sort((a, b) => b - a)`: descending sort. -/
def sortDesc (ys : List Int) : List Int :=
  List.insertionSort (fun a b => b ≤ a) ys

/-- The compaction of one key's observed years: sort descending, set
`end_year = years[0]`, scan. -/
def compactRanges (ys : List Int) : List (Int × Int) :=
  match sortDesc ys with
  | [] => []
  | y :: rest => compactScan y (y :: rest)

/-- The years pushed into one key's group by the `reduce` grouping
(`main.ts`, lines 166-169): the years of the observations carrying that
key, in input order. -/
def yearsOf (obs : List (String × Int)) (k : String) : List Int :=
  (obs.filter fun p => p.1 == k).map Prod.snd

/-- The ranges the code produces for key `k` from the observation list
`obs`. -/
def compactFor (obs : List (String × Int)) (k : String) : List (Int × Int) :=
  compactRanges (yearsOf obs k)

/-- `z` is covered by some range of `rs`. -/
def coversAny (rs : List (Int × Int)) (z : Int) : Prop :=
  ∃ r ∈ rs, r.1 ≤ z ∧ z ≤ r.2

theorem coversAny_nil (z : Int) : coversAny [] z ↔ False := by
  simp [coversAny]

theorem coversAny_cons (r : Int × Int) (rs : List (Int × Int)) (z : Int) :
    coversAny (r :: rs) z ↔ (r.1 ≤ z ∧ z ≤ r.2) ∨ coversAny rs z := by
  simp [coversAny]

/-- Coverage invariant of the scan: on a `≥`-sorted list whose head run is
`[y, e]`, the produced ranges cover exactly `[y, e]` plus the remaining
years. -/
theorem compactScan_cover : ∀ (rest : List Int) (y e z : Int), y ≤ e →
    List.Pairwise (fun a b => b ≤ a) (y :: rest) →
    (coversAny (compactScan e (y :: rest)) z ↔ (y ≤ z ∧ z ≤ e) ∨ z ∈ rest) := by
  intro rest
  induction rest with
  | nil =>
    intro y e z hye _
    simp [compactScan, coversAny]
  | cons y' rest' ih =>
    intro y e z hye hpw
    have hy'y : y' ≤ y := (List.pairwise_cons.mp hpw).1 y' (List.mem_cons_self _ _)
    have hpw' : List.Pairwise (fun a b => b ≤ a) (y' :: rest') :=
      (List.pairwise_cons.mp hpw).2
    by_cases hadj : y' = y - 1
    · rw [show compactScan e (y :: y' :: rest') = compactScan e (y' :: rest') by
        simp [compactScan, hadj]]
      rw [ih y' e z (by omega) hpw']
      constructor
      · rintro (⟨h1, h2⟩ | hm)
        · by_cases hzy : y ≤ z
          · exact Or.inl ⟨hzy, h2⟩
          · exact Or.inr (List.mem_cons.mpr (Or.inl (by omega)))
        · exact Or.inr (List.mem_cons.mpr (Or.inr hm))
      · rintro (⟨h1, h2⟩ | hm)
        · exact Or.inl ⟨by omega, h2⟩
        · rcases List.mem_cons.mp hm with h | h
          · exact Or.inl ⟨by omega, by omega⟩
          · exact Or.inr h
    · rw [show compactScan e (y :: y' :: rest') = (y, e) :: compactScan y' (y' :: rest') by
        simp [compactScan, hadj]]
      rw [coversAny_cons, ih y' y' z (le_refl _) hpw']
      constructor
      · rintro (⟨h1, h2⟩ | ⟨h1, h2⟩ | hm)
        · exact Or.inl ⟨h1, h2⟩
        · exact Or.inr (List.mem_cons.mpr (Or.inl (by omega)))
        · exact Or.inr (List.mem_cons.mpr (Or.inr hm))
      · rintro (⟨h1, h2⟩ | hm)
        · exact Or.inl ⟨h1, h2⟩
        · rcases List.mem_cons.mp hm with h | h
          · exact Or.inr (Or.inl ⟨by omega, by omega⟩)
          · exact Or.inr (Or.inr h)

/-- Shape invariant of the scan on a strictly descending list: every range
is non-degenerate and ends at or below `e`, and successive ranges are
separated by a gap of at least one missing year. -/
theorem compactScan_ordered : ∀ (rest : List Int) (y e : Int), y ≤ e →
    List.Pairwise (fun a b => b < a) (y :: rest) →
    (∀ r ∈ compactScan e (y :: rest), r.1 ≤ r.2 ∧ r.2 ≤ e) ∧
      List.Pairwise (fun r s : Int × Int => s.2 < r.1 - 1) (compactScan e (y :: rest)) := by
  intro rest
  induction rest with
  | nil =>
    intro y e hye _
    constructor
    · intro r hr
      rcases List.mem_singleton.mp hr with rfl
      exact ⟨hye, le_refl _⟩
    · exact List.pairwise_singleton _ _
  | cons y' rest' ih =>
    intro y e hye hpw
    have hy'y : y' < y := (List.pairwise_cons.mp hpw).1 y' (List.mem_cons_self _ _)
    have hpw' : List.Pairwise (fun a b => b < a) (y' :: rest') :=
      (List.pairwise_cons.mp hpw).2
    by_cases hadj : y' = y - 1
    · rw [show compactScan e (y :: y' :: rest') = compactScan e (y' :: rest') by
        simp [compactScan, hadj]]
      exact ih y' e (by omega) hpw'
    · rw [show compactScan e (y :: y' :: rest') = (y, e) :: compactScan y' (y' :: rest') by
        simp [compactScan, hadj]]
      obtain ⟨hall, hgap⟩ := ih y' y' (le_refl _) hpw'
      constructor
      · intro r hr
        rcases List.mem_cons.mp hr with rfl | hr
        · exact ⟨hye, le_refl _⟩
        · obtain ⟨h1, h2⟩ := hall r hr
          exact ⟨h1, by omega⟩
      · refine List.pairwise_cons.mpr ⟨?_, hgap⟩
        intro s hs
        have := (hall s hs).2
        simp only
        omega

/-- Coverage of the full compaction: a year is covered by some produced
range iff it occurs in the input list (duplicates or not). -/
theorem cover_compactRanges (ys : List Int) (z : Int) :
    coversAny (compactRanges ys) z ↔ z ∈ ys := by
  have hperm : (sortDesc ys).Perm ys := List.perm_insertionSort _ ys
  have hsorted : List.Pairwise (fun a b : Int => b ≤ a) (sortDesc ys) :=
    List.sorted_insertionSort _ ys
  rcases hs : sortDesc ys with _ | ⟨y, rest⟩
  · rw [hs] at hperm
    have : ys = [] := (List.Perm.nil_eq hperm).symm
    subst this
    simp [compactRanges, hs, coversAny_nil]
  · rw [hs] at hperm hsorted
    have : compactRanges ys = compactScan y (y :: rest) := by
      unfold compactRanges
      rw [hs]
    rw [this, compactScan_cover rest y y z (le_refl _) hsorted]
    rw [← hperm.mem_iff]
    constructor
    · rintro (⟨h1, h2⟩ | hm)
      · exact List.mem_cons.mpr (Or.inl (by omega))
      · exact List.mem_cons.mpr (Or.inr hm)
    · intro hm
      rcases List.mem_cons.mp hm with rfl | hm
      · exact Or.inl ⟨le_refl _, le_refl _⟩
      · exact Or.inr hm

/-- Shape of the full compaction on a duplicate-free input: valid,
pairwise separated (hence non-overlapping and maximal) ranges. -/
theorem compactRanges_shape (ys : List Int) (hnd : ys.Nodup) :
    (∀ r ∈ compactRanges ys, r.1 ≤ r.2) ∧
      List.Pairwise (fun r s : Int × Int => s.2 < r.1 - 1) (compactRanges ys) := by
  have hperm : (sortDesc ys).Perm ys := List.perm_insertionSort _ ys
  have hsorted : List.Pairwise (fun a b : Int => b ≤ a) (sortDesc ys) :=
    List.sorted_insertionSort _ ys
  have hnd' : (sortDesc ys).Nodup := hperm.nodup_iff.mpr hnd
  have hstrict : List.Pairwise (fun a b : Int => b < a) (sortDesc ys) := by
    have := hsorted.and hnd'
    exact this.imp fun h => lt_of_le_of_ne h.1 (Ne.symm h.2)
  rcases hs : sortDesc ys with _ | ⟨y, rest⟩
  · constructor
    · intro r hr
      simp [compactRanges, hs] at hr
    · simp [compactRanges, hs]
  · rw [hs] at hstrict
    have heq : compactRanges ys = compactScan y (y :: rest) := by
      unfold compactRanges
      rw [hs]
    obtain ⟨hall, hgap⟩ := compactScan_ordered rest y y (le_refl _) hstrict
    rw [heq]
    exact ⟨fun r hr => (hall r hr).1, hgap⟩

/-- `obs.Nodup` gives duplicate-free per-key year lists. -/
theorem yearsOf_nodup (obs : List (String × Int)) (k : String) (h : obs.Nodup) :
    (yearsOf obs k).Nodup := by
  unfold yearsOf
  apply (List.Nodup.filter _ h).map_on
  intro x hx y hy hxy
  have hxk : x.1 = k := by
    have := (List.mem_filter.mp hx).2
    exact beq_iff_eq.mp this
  have hyk : y.1 = k := by
    have := (List.mem_filter.mp hy).2
    exact beq_iff_eq.mp this
  exact Prod.ext (hxk.trans hyk.symm) hxy

/-- Membership in a key's year list is membership of the pair in the
observation list. -/
theorem mem_yearsOf (obs : List (String × Int)) (k : String) (z : Int) :
    z ∈ yearsOf obs k ↔ (k, z) ∈ obs := by
  unfold yearsOf
  constructor
  · intro hm
    obtain ⟨p, hp, hpz⟩ := List.mem_map.mp hm
    obtain ⟨hpo, hpk⟩ := List.mem_filter.mp hp
    have : p = (k, z) := Prod.ext (beq_iff_eq.mp hpk) hpz
    exact this ▸ hpo
  · intro hm
    exact List.mem_map.mpr ⟨(k, z), List.mem_filter.mpr ⟨hm, beq_iff_eq.mpr rfl⟩, rfl⟩

/-! ## Capture run (`clerk-scraper.ts`, lines 27-127)

The outer control flow of `runClerkScraper`: navigate to the search URL
and wait (bounded) for the results listing, extract the raw document rows,
filter them with `matchesTarget`, then for each filtered document run the
try/catch/finally block of lines 68-119.  Effects are driven by an
explicit environment:

* `listingOk` — the navigation and the bounded `waitForSelector` for
  `table tbody tr` (lines 38-40) succeed;
* `extracted` — the result of the listing extraction (lines 42-55), or
  `none` if that call throws;
* `attempt i k` — the outcome of the `k`-th capture attempt for filtered
  document `i` (row click via the instrument-number lookup, viewer wait,
  URL capture, page count, screenshots, OCR, summarization).  The code
  performs exactly one attempt per document, so only `attempt i 0` is ever
  consulted;
* `goBackOk i` — whether `page.goBack()` in the `finally` block succeeds
  after document `i`.

An exception from the `finally` block's `goBack` propagates out of the
loop and is caught only by the outer handler, so it turns the whole run
into a failure result. -/

/-- Outcome of one capture attempt for one document.  On failure,
`url` records whether the viewer URL had been captured before the error
(`documentUrl` stays `null` when the error precedes the URL capture);
the `sessionLost` flag records whether the thrown error was a
session/context-closed error — the code never inspects it. -/
inductive DocAttempt where
  | success (summary : String) (url : String) : DocAttempt
  | failure (sessionLost : Bool) (url : Option String) : DocAttempt
deriving DecidableEq, Repr

/-- Environment driving one capture run. -/
structure RunEnv where
  listingOk : Bool
  extracted : Option (List RawDoc)
  attempt : Nat → Nat → DocAttempt
  goBackOk : Nat → Bool

/-- The record pushed for one document: `{...doc, summary, documentUrl}`
(line 113). -/
structure ProcessedDoc where
  doc : RawDoc
  summary : String
  documentUrl : Option String
deriving DecidableEq, Repr

/-- The sentinel of line 69. -/
def sentinelSummary : String := "Summary could not be generated."

/-- The record produced for filtered document `i`: the summary initialized
to the sentinel is overwritten only if the single capture attempt
succeeds; the `finally` block pushes the record in either case. -/
def processDoc (env : RunEnv) (i : Nat) (d : RawDoc) : ProcessedDoc :=
  match env.attempt i 0 with
  | DocAttempt.success s url => ⟨d, s, some url⟩
  | DocAttempt.failure _ url => ⟨d, sentinelSummary, url⟩

/-- The per-document loop (lines 68-119).  `total` is
`filteredDocuments.length`; after every document except the last
(`index < filteredDocuments.length - 1`) the `finally` block navigates
back, and a failure there escapes the loop. -/
def captureLoop (env : RunEnv) (total : Nat) : Nat → List RawDoc → Except String (List ProcessedDoc)
  | _, [] => Except.ok []
  | i, d :: rest =>
    let p := processDoc env i d
    if i < total - 1 then
      if env.goBackOk i then (captureLoop env total (i + 1) rest).map (p :: ·)
      else Except.error "goBack failed"
    else (captureLoop env total (i + 1) rest).map (p :: ·)

/-- `runClerkScraper` (lines 27-127): fail if the listing never renders or
the extraction throws; otherwise filter, return `ok []` when nothing
matches, else run the loop.  The outer catch turns any escaped exception
into the failure result. -/
def runClerkScraper (env : RunEnv) (lot block : String) : Except String (List ProcessedDoc) :=
  if !env.listingOk then Except.error "listing timeout"
  else
    match env.extracted with
    | none => Except.error "extract failed"
    | some documents =>
      let filtered := documents.filter (matchesTarget lot block)
      if filtered.isEmpty then Except.ok []
      else captureLoop env filtered.length 0 filtered

/-- The records the loop produces when no `goBack` fails. -/
def expectedRecords (env : RunEnv) : Nat → List RawDoc → List ProcessedDoc
  | _, [] => []
  | i, d :: rest => processDoc env i d :: expectedRecords env (i + 1) rest

/-- Failure discriminator for run results. -/
def isErr : Except String (List ProcessedDoc) → Bool
  | Except.error _ => true
  | Except.ok _ => false

theorem expectedRecords_get? (env : RunEnv) : ∀ (l : List RawDoc) (i j : Nat),
    (expectedRecords env i l).get? j = (l.get? j).map fun d => processDoc env (i + j) d := by
  intro l
  induction l with
  | nil => intro i j; simp [expectedRecords]
  | cons d rest ih =>
    intro i j
    cases j with
    | zero => simp [expectedRecords]
    | succ j' =>
      simp only [expectedRecords, List.get?]
      rw [ih (i + 1) j', show i + 1 + j' = i + (j' + 1) by omega]

theorem expectedRecords_length (env : RunEnv) : ∀ (l : List RawDoc) (i : Nat),
    (expectedRecords env i l).length = l.length := by
  intro l
  induction l with
  | nil => intro i; rfl
  | cons d rest ih => intro i; simp [expectedRecords, ih]

theorem captureLoop_all_ok (env : RunEnv) (total : Nat) :
    ∀ (l : List RawDoc) (i : Nat),
    (∀ j, j < total - 1 → env.goBackOk j = true) →
    captureLoop env total i l = Except.ok (expectedRecords env i l) := by
  intro l
  induction l with
  | nil => intro i _; rfl
  | cons d rest ih =>
    intro i hgb
    simp only [captureLoop, expectedRecords]
    by_cases hi : i < total - 1
    · rw [if_pos hi, hgb i hi, if_pos rfl, ih (i + 1) hgb]
      rfl
    · rw [if_neg hi, ih (i + 1) hgb]
      rfl

theorem isErr_map (f : List ProcessedDoc → List ProcessedDoc)
    (x : Except String (List ProcessedDoc)) : isErr (x.map f) = isErr x := by
  cases x <;> rfl

theorem captureLoop_isErr (env : RunEnv) (total : Nat) :
    ∀ (l : List RawDoc) (i : Nat),
    (isErr (captureLoop env total i l) = true ↔
      ∃ j, i ≤ j ∧ j < i + l.length ∧ j < total - 1 ∧ env.goBackOk j = false) := by
  intro l
  induction l with
  | nil =>
    intro i
    simp only [captureLoop, isErr, List.length_nil]
    constructor
    · intro h; exact absurd h (by simp)
    · rintro ⟨j, h1, h2, _⟩; omega
  | cons d rest ih =>
    intro i
    simp only [captureLoop, List.length_cons]
    by_cases hi : i < total - 1
    · rw [if_pos hi]
      cases hgb : env.goBackOk i with
      | true =>
        rw [if_pos rfl, isErr_map, ih (i + 1)]
        constructor
        · rintro ⟨j, h1, h2, h3, h4⟩
          exact ⟨j, by omega, by omega, h3, h4⟩
        · rintro ⟨j, h1, h2, h3, h4⟩
          rcases Nat.eq_or_lt_of_le h1 with rfl | h1'
          · rw [hgb] at h4; exact absurd h4 (by simp)
          · exact ⟨j, by omega, by omega, h3, h4⟩
      | false =>
        rw [if_neg (by simp)]
        simp only [isErr, true_iff]
        exact ⟨i, le_refl _, by omega, hi, hgb⟩
    · rw [if_neg hi, isErr_map, ih (i + 1)]
      constructor
      · rintro ⟨j, h1, h2, h3, h4⟩
        exact ⟨j, by omega, by omega, h3, h4⟩
      · rintro ⟨j, h1, h2, h3, h4⟩
        rcases Nat.eq_or_lt_of_le h1 with rfl | h1'
        · omega
        · exact ⟨j, by omega, by omega, h3, h4⟩

/-! ## Claim theorems -/

/-- C3: for every finite duplicate-free set of (key, year) observations,
the produced ranges of each key cover exactly that key's observed years,
are valid (`start ≤ end`), and are pairwise separated by a gap of at least
one year (hence non-overlapping and maximal); in particular the years
{2015, 2019, 2020, 2021, 2022} yield the range 2019..2022 followed by the
range 2015..2015. -/
theorem compaction_correct :
    (∀ (obs : List (String × Int)) (k : String), obs.Nodup →
      (∀ z : Int, coversAny (compactFor obs k) z ↔ z ∈ yearsOf obs k) ∧
      (∀ r ∈ compactFor obs k, r.1 ≤ r.2) ∧
      List.Pairwise (fun r s : Int × Int => s.2 < r.1 - 1) (compactFor obs k)) ∧
    compactRanges [2015, 2019, 2020, 2021, 2022] = [(2019, 2022), (2015, 2015)] := by
  constructor
  · intro obs k h
    obtain ⟨hvalid, hgap⟩ := compactRanges_shape (yearsOf obs k) (yearsOf_nodup obs k h)
    exact ⟨fun z => cover_compactRanges (yearsOf obs k) z, hvalid, hgap⟩
  · decide

def obsC3w : List (String × Int) := [("A", 2015), ("A", 2019), ("A", 2020)]

theorem compaction_correct_witness :
    obsC3w.Nodup ∧
    ((∀ z : Int, coversAny (compactFor obsC3w "A") z ↔ z ∈ yearsOf obsC3w "A") ∧
      (∀ r ∈ compactFor obsC3w "A", r.1 ≤ r.2) ∧
      List.Pairwise (fun r s : Int × Int => s.2 < r.1 - 1) (compactFor obsC3w "A")) :=
  ⟨by decide, compaction_correct.1 obsC3w "A" (by decide)⟩

/-- C4 counterexample: duplicate (key, year) pairs are *not* idempotent:
the observation list [("A",2020), ("A",2020)] produces two identical
(overlapping) ranges, while the deduplicated input produces one. -/
theorem compaction_duplicate_counterexample :
    compactFor [("A", 2020), ("A", 2020)] "A" = [(2020, 2020), (2020, 2020)] ∧
    compactFor ([("A", 2020), ("A", 2020)] : List (String × Int)).dedup "A" = [(2020, 2020)] ∧
    compactFor [("A", 2020), ("A", 2020)] "A" ≠
      compactFor ([("A", 2020), ("A", 2020)] : List (String × Int)).dedup "A" := by
  decide

/-- C4 amended: duplicates do not change the *set of years covered* by the
produced ranges — coverage agrees with the deduplicated input — but the
produced range lists themselves are not identical (duplicates yield extra
overlapping ranges). -/
theorem compaction_dedup_coverage :
    ∀ (obs : List (String × Int)) (k : String) (z : Int),
      coversAny (compactFor obs k) z ↔ coversAny (compactFor obs.dedup k) z := by
  intro obs k z
  unfold compactFor
  rw [cover_compactRanges, cover_compactRanges, mem_yearsOf, mem_yearsOf]
  exact List.mem_dedup.symm

def dLot31 : RawDoc := ⟨none, none, none, none, some "I1", none, some "LOT 31 BLOCK 12"⟩

def dLot3 : RawDoc := ⟨none, none, none, none, some "I2", none, some "LOT 3 BLOCK 12"⟩

def dBlockN : RawDoc := ⟨none, none, none, none, some "I3", none, some "LOT 3 BLOCK N"⟩

/-- C5 counterexample: for the target lot "3", block "n" the entry
"LOT 3 BLOCK N" contains a case-insensitive word-boundary match for both
patterns, yet the code's filter drops it: the description is uppercased
but the interpolated target is not, so the match is case-sensitive on the
target side. -/
theorem filter_target_case_counterexample :
    specCaseInsensitiveMatch "3" "n" dBlockN = true ∧
    matchesTarget "3" "n" dBlockN = false ∧
    [dBlockN].filter (matchesTarget "3" "n") = [] := by
  decide

/-- C5 amended: for targets that are unchanged by uppercasing, the filter
retains exactly the entries whose legal-description text contains
case-insensitive word-boundary-anchored matches for the lot (prefixed LOT
or LT) and the block (prefixed BLOCK or BLK); the output is a sublist of
the input (relative order preserved); "LOT 31 BLOCK 12" is not retained
for lot "1" and "LOT 3 BLOCK 12" is retained for lot "3", block "12". -/
theorem filter_retains_spec_matches :
    ∀ (lot block : String) (docs : List RawDoc),
      upperStr lot = lot → upperStr block = block →
      docs.filter (matchesTarget lot block) = docs.filter (specCaseInsensitiveMatch lot block) ∧
      (docs.filter (matchesTarget lot block)).Sublist docs ∧
      matchesTarget "1" "12" dLot31 = false ∧
      matchesTarget "3" "12" dLot3 = true := by
  intro lot block docs h1 h2
  refine ⟨?_, List.filter_sublist docs, by decide, by decide⟩
  apply List.filter_congr
  intro d _
  cases hd : d.legal_description with
  | none =>
    simp only [matchesTarget, specCaseInsensitiveMatch, hd]
    rw [h1, h2]
    rfl
  | some s =>
    simp only [matchesTarget, specCaseInsensitiveMatch, hd]
    rw [h1, h2]
    rfl

theorem filter_retains_spec_matches_witness :
    upperStr "3" = "3" ∧ upperStr "12" = "12" ∧
    (([dLot3].filter (matchesTarget "3" "12") =
        [dLot3].filter (specCaseInsensitiveMatch "3" "12")) ∧
      ([dLot3].filter (matchesTarget "3" "12")).Sublist [dLot3] ∧
      matchesTarget "1" "12" dLot31 = false ∧
      matchesTarget "3" "12" dLot3 = true) :=
  ⟨by decide, by decide, filter_retains_spec_matches "3" "12" [dLot3] (by decide) (by decide)⟩

/-- C6: the three-line input "ST AUGUSTINE HIGHLANDS\nBLK N/6757\nLT 8"
parses to exactly {subdivision: "ST AUGUSTINE HIGHLANDS", block: "N",
city_block: "6757", lot1: "8", lot2: null}. -/
theorem parse_example_st_augustine :
    parseLegalDescription (some "ST AUGUSTINE HIGHLANDS\nBLK N/6757\nLT 8") =
      some ⟨some "ST AUGUSTINE HIGHLANDS", some "N", some "6757", some "8", none⟩ := by
  decide

/-- C7 counterexample: for the empty string (a falsy JS value, like
null/undefined) the parser returns the empty object `{}` — a record
carrying *none* of the five fields (modelled as `none`) — not a record
with all five fields null. -/
theorem parse_empty_input_counterexample :
    parseLegalDescription (some "") = none ∧ parseLegalDescription none = none := by
  decide

/-- C7 amended: for every *non-empty* input string the parser never raises
and returns a record containing all five fields (each a string or null);
for null/undefined/empty input it returns the field-less empty object,
which downstream code treats like all-null fields, still not a hard
error. -/
theorem parse_nonempty_total :
    ∀ s : String, s ≠ "" → ∃ r : LegalFields, parseLegalDescription (some s) = some r := by
  intro s hs
  have hd : ¬s.data.isEmpty = true := by
    intro h
    exact hs (String.ext (List.isEmpty_iff.mp h))
  refine ⟨parseLegalCore s.data, ?_⟩
  show (if s.data.isEmpty = true then none else some (parseLegalCore s.data)) =
    some (parseLegalCore s.data)
  rw [if_neg hd]

theorem parse_nonempty_total_witness :
    "X" ≠ "" ∧ ∃ r : LegalFields, parseLegalDescription (some "X") = some r :=
  ⟨by decide, parse_nonempty_total "X" (by decide)⟩

/-- C9 counterexample: the code strips *every* `&\s*ET\s*AL` occurrence,
not only a trailing "& ET AL" suffix.  "JOHN & ET ALICE" and "JOHN ICE"
resolve to the same owner identity (same id in the normalized-name map),
although their normalized forms under the claim's trailing-suffix rule
differ — so the claimed iff fails. -/
theorem owner_identity_counterexample :
    ownerIdFor [("JOHN ICE", 1), ("JOHN & ET ALICE", 2)] "JOHN ICE" = some 2 ∧
    ownerIdFor [("JOHN ICE", 1), ("JOHN & ET ALICE", 2)] "JOHN & ET ALICE" = some 2 ∧
    specNormalizeOwnerName "JOHN ICE" ≠ specNormalizeOwnerName "JOHN & ET ALICE" := by
  decide

/-- C9 amended: two raw owner names denote the same identity — they
resolve to the same owner id under *every* upserted owner list — iff
their *code* normalizations are equal, where the code normalization
uppercases, strips commas/periods, collapses whitespace, then removes
every `&\s*ET\s*AL` occurrence (not only a trailing suffix) and trims;
in particular "JOHN SMITH" and "JOHN SMITH & ET AL" normalize identically
and merge into one owner.  The backward direction is witnessed by the
owner list `[(r1, 0), (r2, 1)]`, on which names with distinct normalized
forms resolve to the distinct ids 0 and 1. -/
theorem owner_identity_by_normalization :
    (∀ r1 r2 : String,
      normalizeOwnerName r1 = normalizeOwnerName r2 ↔
        ∀ owners : List (String × Nat), ownerIdFor owners r1 = ownerIdFor owners r2) ∧
    normalizeOwnerName "JOHN SMITH & ET AL" = normalizeOwnerName "JOHN SMITH" := by
  constructor
  · intro r1 r2
    constructor
    · intro h owners
      unfold ownerIdFor
      rw [h]
    · intro h
      by_contra hne
      have hspec := h [(r1, 0), (r2, 1)]
      have h21 : (normalizeOwnerName r2 == normalizeOwnerName r1) = false :=
        beq_eq_false_iff_ne.mpr fun hh => hne hh.symm
      have e1 : ownerIdFor [(r1, 0), (r2, 1)] r1 = some 0 := by
        simp only [ownerIdFor, ownerNameToIdMap, mapGet, List.map_cons, List.map_nil,
          List.reverse_cons, List.reverse_nil, List.nil_append, List.cons_append]
        rw [List.find?_cons_of_neg]
        · rw [List.find?_cons_of_pos]
          · rfl
          · show (normalizeOwnerName r1 == normalizeOwnerName r1) = true
            exact beq_self_eq_true _
        · show ¬(normalizeOwnerName r2 == normalizeOwnerName r1) = true
          rw [h21]
          exact Bool.false_ne_true
      have e2 : ownerIdFor [(r1, 0), (r2, 1)] r2 = some 1 := by
        simp only [ownerIdFor, ownerNameToIdMap, mapGet, List.map_cons, List.map_nil,
          List.reverse_cons, List.reverse_nil, List.nil_append, List.cons_append]
        rw [List.find?_cons_of_pos]
        · rfl
        · show (normalizeOwnerName r2 == normalizeOwnerName r2) = true
          exact beq_self_eq_true _
      rw [e1, e2] at hspec
      exact absurd hspec (by simp)
  · decide

theorem owner_identity_by_normalization_witness :
    normalizeOwnerName "JOHN SMITH & ET AL" = normalizeOwnerName "JOHN SMITH" ∧
    ownerIdFor [("JOHN SMITH", 7)] "JOHN SMITH & ET AL" =
      ownerIdFor [("JOHN SMITH", 7)] "JOHN SMITH" :=
  ⟨by decide,
    (owner_identity_by_normalization.1 "JOHN SMITH & ET AL" "JOHN SMITH").mp (by decide)
      [("JOHN SMITH", 7)]⟩

/-- C10: an entry whose `legal_description` is absent is treated as the
empty string by the filter, which can never contain the required lot and
block matches, so the entry is always excluded from the filtered
listing — for every target. -/
theorem missing_legal_description_excluded :
    ∀ (lot block : String) (docs : List RawDoc) (d : RawDoc),
      d.legal_description = none → d ∉ docs.filter (matchesTarget lot block) := by
  intro lot block docs d hd hmem
  have hm := (List.mem_filter.mp hmem).2
  have hfalse : matchesTarget lot block d = false := by
    simp only [matchesTarget, hd]
    rfl
  rw [hfalse] at hm
  exact absurd hm (by simp)

def dNoLegal : RawDoc := ⟨some "DEED", none, none, none, some "I9", none, none⟩

theorem missing_legal_description_excluded_witness :
    dNoLegal.legal_description = none ∧
    dNoLegal ∉ [dNoLegal, dLot3].filter (matchesTarget "3" "12") :=
  ⟨rfl, missing_legal_description_excluded "3" "12" [dNoLegal, dLot3] dNoLegal rfl⟩

def dMatch1 : RawDoc := ⟨some "DEED", none, none, none, some "INS1", none, some "LOT 3 BLOCK 12"⟩

def dMatch2 : RawDoc := ⟨some "LIEN", none, none, none, some "INS2", none, some "LOT 3 BLK 12"⟩

def dMatch3 : RawDoc := ⟨some "DEED", none, none, none, some "INS3", none, some "LT 3 BLOCK 12"⟩

/-- C1 amended: once the listing has rendered and documents are extracted,
and provided every inter-document `goBack` navigation succeeds, the run
returns exactly one record per matched document, in order: the record
carries the document's own fields, with the generated summary on success
and the fixed sentinel on failure.  (Without the `goBack` proviso the
documents can be dropped: see the counterexample.) -/
theorem capture_one_record_per_match :
    ∀ (env : RunEnv) (lot block : String) (docs : List RawDoc),
      env.listingOk = true → env.extracted = some docs →
      (∀ i, i + 1 < (docs.filter (matchesTarget lot block)).length → env.goBackOk i = true) →
      ∃ out, runClerkScraper env lot block = Except.ok out ∧
        out.length = (docs.filter (matchesTarget lot block)).length ∧
        ∀ j, out.get? j = ((docs.filter (matchesTarget lot block)).get? j).map
          fun d => processDoc env j d := by
  intro env lot block docs hL hE hG
  refine ⟨expectedRecords env 0 (docs.filter (matchesTarget lot block)), ?_, ?_, ?_⟩
  · unfold runClerkScraper
    rw [hL, hE]
    show (if (docs.filter (matchesTarget lot block)).isEmpty then Except.ok []
      else captureLoop env (docs.filter (matchesTarget lot block)).length 0
        (docs.filter (matchesTarget lot block))) = _
    by_cases hempty : (docs.filter (matchesTarget lot block)).isEmpty = true
    · rw [if_pos hempty, List.isEmpty_iff.mp hempty]
      rfl
    · rw [if_neg hempty]
      apply captureLoop_all_ok
      intro j hj
      apply hG
      omega
  · rw [expectedRecords_length]
  · intro j
    rw [expectedRecords_get?]
    simp only [Nat.zero_add]

def envC1w : RunEnv :=
  ⟨true, some [dMatch1, dMatch2],
    fun i _ => if i == 0 then DocAttempt.success "GOOD SUMMARY" "URL0"
               else DocAttempt.failure false none,
    fun _ => true⟩

theorem capture_one_record_per_match_witness :
    envC1w.listingOk = true ∧ envC1w.extracted = some [dMatch1, dMatch2] ∧
    (∃ out, runClerkScraper envC1w "3" "12" = Except.ok out ∧
      out.length = ([dMatch1, dMatch2].filter (matchesTarget "3" "12")).length ∧
      ∀ j, out.get? j = (([dMatch1, dMatch2].filter (matchesTarget "3" "12")).get? j).map
        fun d => processDoc envC1w j d) :=
  ⟨rfl, rfl,
    capture_one_record_per_match envC1w "3" "12" [dMatch1, dMatch2] rfl rfl
      (fun _ _ => rfl)⟩

def envC1bad : RunEnv :=
  ⟨true, some [dMatch1, dMatch2],
    fun _ _ => DocAttempt.success "GOOD SUMMARY" "URL", fun _ => false⟩

/-- C1 counterexample: two documents match and every capture attempt would
succeed, yet because the `goBack` in the `finally` block after the first
document throws, the whole run returns the failure result and *both*
documents are dropped from the output — the claimed
one-record-per-matched-document invariant does not survive a `goBack`
failure. -/
theorem capture_goback_drops_documents :
    ([dMatch1, dMatch2].filter (matchesTarget "3" "12")).length = 2 ∧
    runClerkScraper envC1bad "3" "12" = Except.error "goBack failed" :=
  ⟨by decide, rfl⟩

def envC2 : RunEnv :=
  ⟨true, some [dMatch1, dMatch2, dMatch3],
    fun i k =>
      if i == 1 then
        (if k == 0 then DocAttempt.failure true none
         else DocAttempt.success "RECOVERED" "URLR")
      else DocAttempt.success "OK" "URL",
    fun _ => true⟩

/-- C2: the code performs *no* session-lost recovery.  With three matched
documents, a session-lost error on the second document's first (and only)
capture attempt, and an environment in which a retry would succeed
(attempt 1 returns the summary "RECOVERED"), the run records the sentinel
for that document and moves on: no new session is created, the search is
not replayed, and no second attempt is ever consulted. -/
theorem capture_no_session_recovery :
    runClerkScraper envC2 "3" "12" =
      Except.ok [⟨dMatch1, "OK", some "URL"⟩, ⟨dMatch2, sentinelSummary, none⟩,
        ⟨dMatch3, "OK", some "URL"⟩] ∧
    envC2.attempt 1 0 = DocAttempt.failure true none ∧
    envC2.attempt 1 1 = DocAttempt.success "RECOVERED" "URLR" :=
  ⟨rfl, rfl, rfl⟩

def envC8 : RunEnv :=
  ⟨true, some [dMatch1, dMatch2, dMatch3],
    fun _ _ => DocAttempt.success "OK" "URL",
    fun i => i != 1⟩

/-- C8 counterexample: the bounded wait for the results listing succeeded
and the documents were extracted, every per-document capture attempt
succeeds, yet the run still returns the failure result because the
`goBack` navigation after the second document throws — so "listing fails
to render" is not the only cause of a failed run, and a navigation-back
failure is not confined to one document's record. -/
theorem capture_goback_failure_fails_run :
    envC8.listingOk = true ∧ envC8.extracted = some [dMatch1, dMatch2, dMatch3] ∧
    isErr (runClerkScraper envC8 "3" "12") = true :=
  ⟨rfl, rfl, rfl⟩

/-- C8 amended: a capture run returns the failure result iff the initial
listing fails to render, or the listing extraction throws, or a `goBack`
navigation between two of the matched documents throws; failures of a
document's own capture attempt (viewer open, pagination, OCR,
summarization) never fail the run — they only set that document's
sentinel summary. -/
theorem run_failure_characterization :
    ∀ (env : RunEnv) (lot block : String),
      isErr (runClerkScraper env lot block) = true ↔
        (env.listingOk = false ∨ env.extracted = none ∨
          ∃ docs i, env.extracted = some docs ∧
            i + 1 < (docs.filter (matchesTarget lot block)).length ∧
            env.goBackOk i = false) := by
  intro env lot block
  cases hL : env.listingOk with
  | false =>
    have hrun : runClerkScraper env lot block = Except.error "listing timeout" := by
      unfold runClerkScraper
      rw [hL]
      rfl
    rw [hrun]
    constructor
    · intro _
      exact Or.inl rfl
    · intro _
      rfl
  | true =>
    cases hE : env.extracted with
    | none =>
      have hrun : runClerkScraper env lot block = Except.error "extract failed" := by
        unfold runClerkScraper
        rw [hL, hE]
        rfl
      rw [hrun]
      constructor
      · intro _
        exact Or.inr (Or.inl rfl)
      · intro _
        rfl
    | some docs =>
      have hrun : runClerkScraper env lot block =
          (if (docs.filter (matchesTarget lot block)).isEmpty then Except.ok []
           else captureLoop env (docs.filter (matchesTarget lot block)).length 0
             (docs.filter (matchesTarget lot block))) := by
        unfold runClerkScraper
        rw [hL, hE]
        rfl
      rw [hrun]
      by_cases hempty : (docs.filter (matchesTarget lot block)).isEmpty = true
      · rw [if_pos hempty]
        have hlen : (docs.filter (matchesTarget lot block)).length = 0 :=
          List.isEmpty_iff_length_eq_zero.mp hempty
        constructor
        · intro h
          exact absurd h (by simp [isErr])
        · rintro (h | h | ⟨docs', i, hd, hlt, hgb⟩)
          · exact absurd h (by simp)
          · exact absurd h (by simp)
          · have hdd : docs = docs' := by
              injection hd
            subst hdd
            omega
      · rw [if_neg hempty]
        have hlen : 0 < (docs.filter (matchesTarget lot block)).length := by
          rcases Nat.eq_zero_or_pos (docs.filter (matchesTarget lot block)).length with h0 | h
          · exact absurd (List.isEmpty_iff_length_eq_zero.mpr h0) hempty
          · exact h
        rw [captureLoop_isErr]
        constructor
        · rintro ⟨j, _, hjlen, hjtot, hgb⟩
          exact Or.inr (Or.inr ⟨docs, j, rfl, by omega, hgb⟩)
        · rintro (h | h | ⟨docs', i, hd, hlt, hgb⟩)
          · exact absurd h (by simp)
          · exact absurd h (by simp)
          · have hdd : docs = docs' := by
              injection hd
            subst hdd
            exact ⟨i, Nat.zero_le i, by omega, by omega, hgb⟩

end TexasProperty
